import Mathlib

/-!
# Verification of the sqltap core (`sqltap/sqltap.py`)

Shallow embedding of the sqltap profiling core:

* Python floats (timestamps, durations) are modelled as `ℚ` (exact arithmetic);
* Python's arbitrary-precision `int` is `ℤ` (or `ℕ` for the display-id counter,
  which only counts upward from 1);
* Python dicts are insertion-ordered association lists (`List (κ × β)`), with
  `getAssoc`/`setAssoc` mirroring `d.get(k)` / `d[k] = v`;
* Python's builtin `hash` is an abstract function `pyhash : α → ℤ` (its output
  is a signed machine-independent integer; `α` is the opaque type of bound
  parameter values);
* Python's stable builtin `sorted` is `List.insertionSort` (a stable
  comparison sort by the same ordering);
* operations that can raise are `Option`-valued or return an error value.
-/

namespace Sqltap

/-- Python string containment `needle in hay`, on the character list of a
string: true iff `needle` occurs contiguously in `hay`. -/
def containsSub (needle : List Char) : List Char → Bool
  | [] => needle.isEmpty
  | c :: t => needle.isPrefixOf (c :: t) || containsSub needle t

/-- `needle in hay` for Python strings. -/
def pyInStr (needle hay : String) : Bool :=
  containsSub needle.data hay.data

/-- Auxiliary recursion for `pySplit`: `acc` holds the current token reversed. -/
def splitWsAux : List Char → List Char → List String
  | [], acc => if acc.isEmpty then [] else [String.mk acc.reverse]
  | c :: cs, acc =>
    if c.isWhitespace then
      if acc.isEmpty then splitWsAux cs []
      else String.mk acc.reverse :: splitWsAux cs []
    else splitWsAux cs (c :: acc)

/-- Python `s.split()` with no arguments: split on runs of whitespace,
producing no empty tokens. -/
def pySplit (s : String) : List String :=
  splitWsAux s.data []

/-- `d.get(k)` on an insertion-ordered association list. -/
def getAssoc [DecidableEq κ] : List (κ × β) → κ → Option β
  | [], _ => none
  | e :: t, k => if e.1 = k then some e.2 else getAssoc t k

/-- `d[k] = v` on an insertion-ordered association list: overwrite the binding
if the key is present, otherwise append it (Python dicts keep insertion
order, new keys go last). -/
def setAssoc [DecidableEq κ] : List (κ × β) → κ → β → List (κ × β)
  | [], k, v => [(k, v)]
  | e :: t, k, v => if e.1 = k then (k, v) :: t else e :: setAssoc t k v

/-- Sum of the values of a counting dict (`sum(d.values())`). -/
def sumValues (l : List (κ × ℕ)) : ℕ :=
  (l.map (·.2)).sum

/-- Embedding of `format_sql`: the external `sqlparse.format` is an abstract
function that may fail (`none` models any exception), in which case the raw
SQL text is returned verbatim (the `try/except` fallback). -/
def format_sql (sqlparse_format : String → Option String) (sql : String) : String :=
  (sqlparse_format sql).getD sql

/-- Key order used by `sorted(params.iterkeys())`: `p ≤ q` on the keys of two
dict entries (total: `¬ q < p`).  Python compares strings lexicographically
by code point, which is the `List Char` order on the characters
(`String.lt_iff`). -/
def keyLE (p q : String × α) : Prop :=
  ¬ q.1.data < p.1.data

instance : DecidableRel (keyLE (α := α)) :=
  fun p q => instDecidableNot

/-- The loop body of `_calculate_params_hash`:
`h ^= 10009 * hash(params[k])`, with Python's arbitrary-precision signed
XOR (`Int.xor`). -/
def hashStep (pyhash : α → ℤ) (h : ℤ) (p : String × α) : ℤ :=
  Int.xor h (10009 * pyhash p.2)

/-- The final fold-and-mask of `_calculate_params_hash`:
`(h ^ (h >> 32)) & ((1 << 32) - 1)` (Python's `>>` is an arithmetic shift;
`&` with the nonnegative mask yields a nonnegative integer). -/
def fold32 (h : ℤ) : ℤ :=
  Int.land (Int.xor h (h >>> (32 : ℤ))) ((1 <<< (32 : ℤ)) - 1)

/-- Embedding of `QueryStats._calculate_params_hash`.  The dict is an
association list; iterating its keys in sorted order and indexing
`params[k]` is iterating the entries sorted by key and taking each entry's
value (dict keys are distinct): XOR-accumulate over the entries in
key-sorted order, then fold and mask to 32 bits. -/
def calculate_params_hash (pyhash : α → ℤ) (params : List (String × α)) : ℤ :=
  fold32 ((List.insertionSort keyLE params).foldl (hashStep pyhash) 0)

/-- Embedding of `QueryStats`.  A stack frame is modelled by its module file
path (`frame[0]`, the only component the core inspects).  `stack_text` is the
formatted stack text cached on the record by `Reporter._process_stats`;
`duration = end_time - start_time` and
`params_hash = _calculate_params_hash(params)` are established at
construction (`mkQueryStats`). `α` is the opaque type of bound parameter
values. -/
structure QueryStats (α : Type) where
  text : String
  stack : List String
  stack_text : String
  start_time : ℚ
  end_time : ℚ
  duration : ℚ
  params : List (String × α)
  params_hash : ℤ
  params_id : Option ℕ
  rowcount : ℤ
deriving DecidableEq

/-- Embedding of `QueryStats.__init__`: `duration` and `params_hash` are
computed from the other arguments; `params_id` starts out `None`
(`stack_text` is attached later by the processor; it starts empty). -/
def mkQueryStats (pyhash : α → ℤ) (text : String) (stack : List String)
    (start_time end_time : ℚ) (params : List (String × α)) (rowcount : ℤ) :
    QueryStats α :=
  { text := text
    stack := stack
    stack_text := ""
    start_time := start_time
    end_time := end_time
    duration := end_time - start_time
    params := params
    params_hash := calculate_params_hash pyhash params
    params_id := none
    rowcount := rowcount }

/-- `sys.maxsize`, the sentinel initial value of `QueryGroup.min`:
`2 ^ 63 - 1` (64-bit platform). -/
def sys_maxsize : ℚ := 9223372036854775807

/-- Embedding of `QueryGroup`.  The `text`/`formatted_text`/`first_word`
attributes do not exist before the first `add` (hence `Option`); the shared
class attribute `QueryGroup.ParamsID` is threaded explicitly through `add`
as a counter value.  An entry of `params_hashes` is
`(params_hash, (count, params_id, params sample))`; the stored id is an
`Option` because the dict-lookup default carries `None` before assignment. -/
structure QueryGroup (α : Type) where
  queries : List (QueryStats α)
  «stacks» : List (String × ℕ)
  params_hashes : List (ℤ × ℕ × Option ℕ × List (String × α))
  callers : List (String × Option String)
  max : ℚ
  min : ℚ
  sum : ℚ
  rowcounts : ℤ
  mean : ℚ
  median : ℚ
  text : Option String
  formatted_text : Option String
  first_word : Option String
deriving DecidableEq

/-- Embedding of `QueryGroup.__init__` (plus the not-yet-existing frozen
attributes as `none`). -/
def QueryGroup.init : QueryGroup α :=
  { queries := []
    «stacks» := []
    params_hashes := []
    callers := []
    max := 0
    min := sys_maxsize
    sum := 0
    rowcounts := 0
    mean := 0
    median := 0
    text := none
    formatted_text := none
    first_word := none }

/-- Embedding of `QueryGroup.find_user_fn`: walk the stack innermost-first
(`reversed(stack)`) and return the first frame whose path does not contain
`'sqlalchemy'`; `none` when every frame matches (Python falls off the loop
and returns `None`). -/
def find_user_fn (stack : List String) : Option String :=
  stack.reverse.find? (fun frame => !(pyInStr "sqlalchemy" frame))

/-- Python `a or b` applied to `q.params_id or params_id`: keep `a` when it
is truthy (a non-`None`, nonzero int), otherwise take `b`. -/
def pyOr (a : Option ℕ) (b : ℕ) : Option ℕ :=
  match a with
  | some i => if i = 0 then some b else some i
  | none => some b

/-- Embedding of `QueryGroup.add`.  `sqlparse_format` abstracts the external
formatter used by `format_sql`; `paramsID` is the current value of the
shared class counter `QueryGroup.ParamsID`.  Returns `none` when the call
raises: on the first record, `self.text.split()[0]` indexes an empty list
whenever the text has no whitespace-delimited token.  Otherwise returns the
updated group, the updated record (its `params_id` may be assigned), and
the new counter value. -/
def QueryGroup.add (sqlparse_format : String → Option String) (g0 : QueryGroup α)
    (paramsID : ℕ) (q : QueryStats α) :
    Option (QueryGroup α × QueryStats α × ℕ) :=
  match
    (if !g0.queries.isEmpty then some g0 else
      match (pySplit q.text).head? with
      | none => none
      | some w =>
        some { g0 with
                text := some q.text
                formatted_text := some (format_sql sqlparse_format q.text)
                first_word := some w })
  with
  | none => none
  | some g =>
    let queries := g.queries ++ [q]
    let «stacks» := setAssoc g.«stacks» q.stack_text
      ((getAssoc g.«stacks» q.stack_text).getD 0 + 1)
    let callers := setAssoc g.callers q.stack_text (find_user_fn q.stack)
    let entry := (getAssoc g.params_hashes q.params_hash).getD (0, none, q.params)
    let count := entry.1
    let stored_id := entry.2.1
    let params := entry.2.2
    let assigned : ℕ × ℕ :=
      match stored_id with
      | none => (paramsID + 1, paramsID + 1)
      | some i => (paramsID, i)
    let paramsID' := assigned.1
    let params_id := assigned.2
    let params_hashes :=
      setAssoc g.params_hashes q.params_hash (count + 1, some params_id, params)
    let q' := { q with params_id := pyOr q.params_id params_id }
    some
      ({ g with
          queries := queries
          «stacks» := «stacks»
          callers := callers
          params_hashes := params_hashes
          max := Max.max g.max q.duration
          min := Min.min g.min q.duration
          sum := g.sum + q.duration
          rowcounts := g.rowcounts + q.rowcount
          mean := (g.sum + q.duration) / (queries.length : ℚ) },
        q', paramsID')

/-- Iterated `QueryGroup.add` over a record sequence, threading the shared
counter; fails as soon as one `add` raises. -/
def QueryGroup.addAll (sqlparse_format : String → Option String) (g : QueryGroup α)
    (paramsID : ℕ) : List (QueryStats α) → Option (QueryGroup α × ℕ)
  | [] => some (g, paramsID)
  | q :: qs =>
    match g.add sqlparse_format paramsID q with
    | none => none
    | some (g', _, c') => g'.addAll sqlparse_format c' qs

/-- Descending-duration order used by `calc_median`'s
`sorted(..., key=lambda q: q.duration, reverse=True)`. -/
def durGE (a b : QueryStats α) : Prop :=
  b.duration ≤ a.duration

instance : DecidableRel (durGE (α := α)) :=
  fun a b => inferInstanceAs (Decidable (_ ≤ _))

/-- Embedding of `QueryGroup.calc_median`: sort a copy of the members by
duration descending; even count averages positions `len//2` and
`len//2 - 1`, odd count takes position `len//2`.  `none` models the
IndexError raised on an empty member list (`queries[0]` with `length = 0`;
the even branch is taken since `0 % 2 == 0`). -/
def QueryGroup.calc_median (g : QueryGroup α) : Option (QueryGroup α) :=
  let queries := List.insertionSort durGE g.queries
  let length := queries.length
  if length % 2 = 0 then
    match queries.get? (length / 2), queries.get? (length / 2 - 1) with
    | some qx1, some qx2 => some { g with median := (qx1.duration + qx2.duration) / 2 }
    | _, _ => none
  else
    match queries.get? (length / 2) with
    | some qm => some { g with median := qm.duration }
    | none => none

/-- The distinct failure kinds of the core: the invalid start/stop transition
and the collect-on-callback-session misuse (both surface as
`AssertionError` in Python; the spec's error taxonomy names the two raise
sites `StateError` and `ConfigurationError`). -/
inductive SqltapError where
  | StateError : SqltapError
  | ConfigurationError : SqltapError
deriving DecidableEq

/-- Embedding of `ProfilingSession`: the `started` flag and the sink.
`collector = some qs` is the internal queue holding the records enqueued
since the last drain (in enqueue order — the queue is FIFO);
`collector = none` models a session constructed with a caller-supplied
`collect_fn` (the code then sets `self.collector = None`).  The SQLAlchemy
hook registration performed by `start`/`stop` is an effect on the external
engine and carries no further session state. -/
structure ProfilingSession (α : Type) where
  started : Bool
  collector : Option (List (QueryStats α))
deriving DecidableEq

/-- Embedding of `ProfilingSession.__init__`: `user_collect_fn` says whether
the caller passed a (truthy) `collect_fn`; otherwise an empty internal
queue is created and used as the sink. -/
def ProfilingSession.init (user_collect_fn : Bool) : ProfilingSession α :=
  { started := false
    collector := if user_collect_fn then none else some [] }

/-- The internal-queue sink (`self.collector.put`), as invoked by
`_after_exec` via `self.collect_fn`: enqueue one record.  On a
callback-backed session the record goes to the user's function instead and
no session state changes. -/
def ProfilingSession.enqueue (s : ProfilingSession α) (q : QueryStats α) :
    ProfilingSession α :=
  { s with collector := s.collector.map (· ++ [q]) }

/-- Iterated `enqueue`. -/
def ProfilingSession.enqueueAll (s : ProfilingSession α) (qs : List (QueryStats α)) :
    ProfilingSession α :=
  qs.foldl ProfilingSession.enqueue s

/-- Embedding of `ProfilingSession.collect`: raises (ConfigurationError) when
the session was built with a caller-supplied `collect_fn`
(`self.collector` is `None`); otherwise drains the queue without blocking,
returning everything currently queued and leaving the queue empty. -/
def ProfilingSession.collect (s : ProfilingSession α) :
    Except SqltapError (List (QueryStats α) × ProfilingSession α) :=
  match s.collector with
  | none => .error .ConfigurationError
  | some qs => .ok (qs, { s with collector := some [] })

/-- Embedding of `ProfilingSession.start`: raises (StateError) when already
started — before any mutation, so the session is returned unchanged —
otherwise sets `started` and registers the execution hooks. -/
def ProfilingSession.start (s : ProfilingSession α) :
    ProfilingSession α × Option SqltapError :=
  if s.started = true then (s, some .StateError)
  else ({ s with started := true }, none)

/-- Embedding of `ProfilingSession.stop`: raises (StateError) when already
stopped, leaving the session unchanged; otherwise clears `started` and
removes the execution hooks. -/
def ProfilingSession.stop (s : ProfilingSession α) :
    ProfilingSession α × Option SqltapError :=
  if s.started = false then (s, some .StateError)
  else ({ s with started := false }, none)

/-- Descending-total-time order used by `Reporter._process_stats`'s
`sorted(query_groups.values(), key=lambda g: g.sum, reverse=True)`. -/
def sumGE (a b : QueryGroup α) : Prop :=
  b.sum ≤ a.sum

instance : DecidableRel (sumGE (α := α)) :=
  fun a b => inferInstanceAs (Decidable (_ ≤ _))

/-- One loop iteration of `Reporter._process_stats`: cache the formatted
stack text on the record (`traceback.format_list` followed by `''.join`
and `.strip()` is the abstract `stack_fmt`), fetch or create the per-text
group (`defaultdict`), add the record to it and then to the all-inclusive
group.  The mutated record produced by the first `add` (its `params_id`
may have been assigned) is the object the second `add` receives.  The
shared `ParamsID` counter is threaded through both calls. -/
def processStep (sqlparse_format : String → Option String)
    (stack_fmt : List String → String)
    (st : List (String × QueryGroup α) × QueryGroup α × ℕ) (q0 : QueryStats α) :
    Option (List (String × QueryGroup α) × QueryGroup α × ℕ) :=
  let (groups, all_group, c) := st
  let q := { q0 with stack_text := stack_fmt q0.stack }
  let g := (getAssoc groups q.text).getD QueryGroup.init
  match g.add sqlparse_format c q with
  | none => none
  | some (g', q', c') =>
    let groups' := setAssoc groups q.text g'
    match all_group.add sqlparse_format c' q' with
    | none => none
    | some (all', _, c'') => some (groups', all', c'')

/-- Embedding of `Reporter._process_stats`: group the records by exact text
into per-text groups and one all-inclusive group, sort the per-text groups
by descending `sum`, then call `calc_median` on each per-text group.  (The
all-inclusive group is returned as built — the loop
`for g in query_groups: g.calc_median()` runs only over the per-text
groups.)  Returns the sorted, finalized per-text groups, the all-inclusive
group and the final counter; `none` models any raise along the way. -/
def process_stats (sqlparse_format : String → Option String)
    (stack_fmt : List String → String) (paramsID : ℕ)
    (stats : List (QueryStats α)) :
    Option (List (QueryGroup α) × QueryGroup α × ℕ) :=
  match stats.foldlM (processStep sqlparse_format stack_fmt)
      ([], QueryGroup.init, paramsID) with
  | none => none
  | some (groups, all_group, c) =>
    let query_groups := List.insertionSort sumGE (groups.map (·.2))
    match query_groups.mapM QueryGroup.calc_median with
    | none => none
    | some finalized => some (finalized, all_group, c)

/-! ## Helper lemmas -/

theorem int_xor_comm (a b : ℤ) : Int.xor a b = Int.xor b a := by
  cases a <;> cases b <;> simp [Int.xor, Nat.xor_comm]

theorem int_xor_assoc (a b c : ℤ) :
    Int.xor (Int.xor a b) c = Int.xor a (Int.xor b c) := by
  cases a <;> cases b <;> cases c <;> simp [Int.xor, Nat.xor_assoc]

theorem nat_ldiff_lt_two_pow {n : ℕ} (m : ℕ) (h : n < 2 ^ 32) :
    Nat.ldiff n m < 2 ^ 32 := by
  have hle : Nat.ldiff n m ≤ n := by
    apply Nat.le_of_testBit
    intro i hi
    rw [Nat.testBit_ldiff] at hi
    exact Bool.and_elim_left hi
  omega

theorem int_land_mask_nonneg_lt (x : ℤ) {m : ℕ} (hm : m < 2 ^ 32) :
    0 ≤ Int.land x (Int.ofNat m) ∧ Int.land x (Int.ofNat m) < 2 ^ 32 := by
  cases x with
  | ofNat n =>
    have h1 : Int.land (Int.ofNat n) (Int.ofNat m) = Int.ofNat (n &&& m) := rfl
    have h2 : n &&& m < 2 ^ 32 := Nat.and_lt_two_pow n hm
    rw [h1]
    constructor
    · exact Int.ofNat_nonneg _
    · rw [Int.ofNat_eq_natCast]
      exact_mod_cast h2
  | negSucc n =>
    have h1 : Int.land (Int.negSucc n) (Int.ofNat m) = Int.ofNat (Nat.ldiff m n) := rfl
    have h2 : Nat.ldiff m n < 2 ^ 32 := nat_ldiff_lt_two_pow n hm
    rw [h1]
    constructor
    · exact Int.ofNat_nonneg _
    · rw [Int.ofNat_eq_natCast]
      exact_mod_cast h2

theorem fold32_nonneg_lt (h : ℤ) : 0 ≤ fold32 h ∧ fold32 h < 2 ^ 32 := by
  have hmask : ((1 <<< (32 : ℤ)) - 1 : ℤ) = Int.ofNat 4294967295 := by decide
  have hm : (4294967295 : ℕ) < 2 ^ 32 := by norm_num
  rw [fold32, hmask]
  exact int_land_mask_nonneg_lt _ hm

theorem hashStep_right_comm (pyhash : α → ℤ) :
    RightCommutative (hashStep pyhash) := by
  refine ⟨fun b p q => ?_⟩
  simp only [hashStep, int_xor_assoc]
  rw [int_xor_comm (10009 * pyhash p.2)]

/-- The XOR accumulation is invariant under permuting the entry list. -/
theorem foldl_hashStep_perm (pyhash : α → ℤ) {l₁ l₂ : List (String × α)}
    (h : l₁.Perm l₂) :
    l₁.foldl (hashStep pyhash) 0 = l₂.foldl (hashStep pyhash) 0 := by
  haveI := hashStep_right_comm pyhash
  exact h.foldl_eq 0

/-- The key-sorted accumulation equals the accumulation in original dict
order: XOR-accumulation only sees the multiset of entries. -/
theorem calculate_params_hash_eq_foldl (pyhash : α → ℤ)
    (params : List (String × α)) :
    calculate_params_hash pyhash params
      = fold32 (params.foldl (hashStep pyhash) 0) := by
  rw [calculate_params_hash]
  exact congrArg fold32 (foldl_hashStep_perm pyhash (List.perm_insertionSort _ params))

/-! ## C5 -/

/-- C5: `_calculate_params_hash` is a function of the entry multiset of the
parameter mapping — two mappings with identical key-to-value pairs in any
insertion order (permuted association lists) hash identically — and its
value lies in `[0, 2^32)`. -/
theorem params_hash_deterministic_in_range (pyhash : α → ℤ)
    (l₁ l₂ : List (String × α)) (hperm : l₁.Perm l₂) :
    calculate_params_hash pyhash l₁ = calculate_params_hash pyhash l₂ ∧
    0 ≤ calculate_params_hash pyhash l₁ ∧
    calculate_params_hash pyhash l₁ < 2 ^ 32 := by
  refine ⟨?_, fold32_nonneg_lt _⟩
  rw [calculate_params_hash_eq_foldl, calculate_params_hash_eq_foldl]
  exact congrArg fold32 (foldl_hashStep_perm pyhash hperm)

/-- Witness for C5 at a concrete pair of mappings differing in insertion
order. -/
theorem params_hash_deterministic_in_range_witness :
    calculate_params_hash (fun v : ℤ => v) [("a", 3), ("b", 5)]
      = calculate_params_hash (fun v : ℤ => v) [("b", 5), ("a", 3)] ∧
    0 ≤ calculate_params_hash (fun v : ℤ => v) [("a", 3), ("b", 5)] ∧
    calculate_params_hash (fun v : ℤ => v) [("a", 3), ("b", 5)] < 2 ^ 32 :=
  params_hash_deterministic_in_range (fun v : ℤ => v) _ _ (by decide)

/-! ## C9 -/

/-- C9: the parameter hash depends only on the multiset of per-value hashes
— permuting which keys carry which values, or renaming keys, leaves
`params_hash` unchanged, so distinct parameter sets can share one display
bucket. -/
theorem params_hash_ignores_keys (pyhash : α → ℤ)
    (l₁ l₂ : List (String × α))
    (hv : (l₁.map (fun p => pyhash p.2)).Perm (l₂.map (fun p => pyhash p.2))) :
    calculate_params_hash pyhash l₁ = calculate_params_hash pyhash l₂ := by
  rw [calculate_params_hash_eq_foldl, calculate_params_hash_eq_foldl]
  have hfold : ∀ l : List (String × α),
      l.foldl (hashStep pyhash) 0
        = (l.map (fun p => pyhash p.2)).foldl (fun h x => Int.xor h (10009 * x)) 0 := by
    intro l
    rw [List.foldl_map]
    rfl
  rw [hfold, hfold]
  haveI : RightCommutative (fun h x => Int.xor h ((10009 : ℤ) * x)) := by
    refine ⟨fun b x y => ?_⟩
    simp only [int_xor_assoc]
    rw [int_xor_comm (10009 * x)]
  exact congrArg fold32 (hv.foldl_eq 0)

/-- Witness for C9: `{a:1, b:2}`, `{a:2, b:1}` and `{x:1, y:2}` all hash
identically. -/
theorem params_hash_ignores_keys_witness :
    calculate_params_hash (fun v : ℤ => v) [("a", 1), ("b", 2)]
      = calculate_params_hash (fun v : ℤ => v) [("a", 2), ("b", 1)] ∧
    calculate_params_hash (fun v : ℤ => v) [("a", 1), ("b", 2)]
      = calculate_params_hash (fun v : ℤ => v) [("x", 1), ("y", 2)] :=
  ⟨params_hash_ignores_keys (fun v : ℤ => v) _ _ (by decide),
   params_hash_ignores_keys (fun v : ℤ => v) _ _ (by decide)⟩

/-! ## C4 -/

/-- Descending order on rationals, the spec's descending-sort convention on
durations. -/
def ratGE (a b : ℚ) : Prop :=
  b ≤ a

instance : DecidableRel ratGE :=
  fun a b => inferInstanceAs (Decidable (_ ≤ _))

instance : IsTotal ℚ ratGE :=
  ⟨fun a b => le_total b a⟩

instance : IsTrans ℚ ratGE :=
  ⟨fun _ _ _ hab hbc => le_trans hbc hab⟩

instance : IsAntisymm ℚ ratGE :=
  ⟨fun _ _ h1 h2 => le_antisymm h2 h1⟩

instance : IsTotal (QueryStats α) durGE :=
  ⟨fun a b => le_total b.duration a.duration⟩

instance : IsTrans (QueryStats α) durGE :=
  ⟨fun _ _ _ hab hbc => le_trans hbc hab⟩

/-- The median of a duration list as the spec describes it: sort the
durations descending; odd length takes position `len / 2`, even length
averages positions `len / 2` and `len / 2 - 1`. -/
def medianSpec (ds : List ℚ) : ℚ :=
  let sorted := List.insertionSort ratGE ds
  if ds.length % 2 = 0 then
    ((sorted.get? (ds.length / 2)).getD 0 + (sorted.get? (ds.length / 2 - 1)).getD 0) / 2
  else (sorted.get? (ds.length / 2)).getD 0

/-- Sorting the records by duration descending and reading off durations is
sorting the duration list descending. -/
theorem map_duration_insertionSort (l : List (QueryStats α)) :
    (List.insertionSort durGE l).map (·.duration)
      = List.insertionSort ratGE (l.map (·.duration)) := by
  apply List.eq_of_perm_of_sorted (r := ratGE)
  · exact ((List.perm_insertionSort durGE l).map _).trans
      (List.perm_insertionSort ratGE _).symm
  · exact List.Pairwise.map _ (fun a b hab => hab) (List.sorted_insertionSort durGE l)
  · exact List.sorted_insertionSort ratGE _

theorem length_insertionSort_durGE (l : List (QueryStats α)) :
    (List.insertionSort durGE l).length = l.length :=
  (List.perm_insertionSort durGE l).length_eq

/-- C4: on a nonempty group, `calc_median` succeeds and sets `median` to the
median of the members' durations under the descending-sort convention
(`medianSpec`): the duration at position `len / 2` for an odd count, the
average of the durations at positions `len / 2` and `len / 2 - 1` for an
even count. -/
theorem calc_median_eq_medianSpec (g : QueryGroup α) (hne : g.queries ≠ []) :
    g.calc_median = some { g with median := medianSpec (g.queries.map (·.duration)) } := by
  have hlen : (List.insertionSort durGE g.queries).length = g.queries.length :=
    length_insertionSort_durGE g.queries
  have hpos : 0 < g.queries.length := List.length_pos.mpr hne
  have hmap := map_duration_insertionSort g.queries
  have hds : ∀ i : ℕ, (hi : i < g.queries.length) →
      (List.insertionSort ratGE (g.queries.map (·.duration))).get? i
        = some ((List.insertionSort durGE g.queries).get ⟨i, hlen ▸ hi⟩).duration := by
    intro i hi
    rw [← hmap, List.get?_map, List.get?_eq_get (hlen ▸ hi)]
    rfl
  rw [QueryGroup.calc_median, medianSpec]
  simp only [List.length_map, hlen]
  by_cases hpar : g.queries.length % 2 = 0
  · have h2 : 2 ≤ g.queries.length := by omega
    have h1 : g.queries.length / 2 < g.queries.length := Nat.div_lt_self hpos (by norm_num)
    have h1' : g.queries.length / 2 - 1 < g.queries.length :=
      lt_of_le_of_lt (Nat.sub_le _ _) h1
    rw [if_pos hpar, if_pos hpar, List.get?_eq_get (hlen ▸ h1), List.get?_eq_get (hlen ▸ h1'),
      hds _ h1, hds _ h1']
    rfl
  · have h1 : g.queries.length / 2 < g.queries.length := Nat.div_lt_self hpos (by norm_num)
    rw [if_neg hpar, if_neg hpar, List.get?_eq_get (hlen ▸ h1), hds _ h1]
    rfl

/-- A minimal concrete record with a given duration, for instantiating
theorems. -/
def durRec (d : ℚ) : QueryStats ℤ :=
  { text := "SELECT 1"
    stack := []
    stack_text := ""
    start_time := 0
    end_time := d
    duration := d
    params := []
    params_hash := 0
    params_id := none
    rowcount := 0 }

/-- A group whose member durations are `[5, 1, 3]`. -/
def medGroupOdd : QueryGroup ℤ :=
  { QueryGroup.init with queries := [durRec 5, durRec 1, durRec 3] }

/-- A group whose member durations are `[5, 1, 3, 2]`. -/
def medGroupEven : QueryGroup ℤ :=
  { QueryGroup.init with queries := [durRec 5, durRec 1, durRec 3, durRec 2] }

/-- Witness for C4: member durations `[5, 1, 3]` give median `3`; member
durations `[5, 1, 3, 2]` give median `5/2 = 2.5`. -/
theorem calc_median_eq_medianSpec_witness :
    medGroupOdd.calc_median = some { medGroupOdd with median := 3 } ∧
    medGroupEven.calc_median = some { medGroupEven with median := 5 / 2 } := by
  constructor
  · rw [calc_median_eq_medianSpec medGroupOdd (by decide)]
    decide
  · rw [calc_median_eq_medianSpec medGroupEven (by decide)]
    have hm : medianSpec (medGroupEven.queries.map (·.duration)) = 5 / 2 := by
      show medianSpec [5, 1, 3, 2] = 5 / 2
      simp [medianSpec, List.insertionSort, List.orderedInsert, ratGE]
      norm_num
    rw [hm]

/-! ## C10 -/

/-- C10: on a fresh group, `add` fails exactly when the record's text has no
whitespace-delimited token — the freeze step's `text.split()[0]` then
indexes an empty list (empty or whitespace-only text) — and succeeds,
populating the group, whenever the text has at least one token. -/
theorem add_fresh_fails_iff_tokenless (sqlparse_format : String → Option String)
    (paramsID : ℕ) (q : QueryStats α) :
    QueryGroup.init.add sqlparse_format paramsID q = none ↔ pySplit q.text = [] := by
  cases hsp : pySplit q.text with
  | nil => simp [QueryGroup.add, QueryGroup.init, hsp]
  | cons w ws => simp [QueryGroup.add, QueryGroup.init, hsp]

/-! ## C7 -/

/-- C7: `start` on a started session raises StateError and leaves the session
unchanged (still started); `stop` on a stopped session raises StateError
and leaves it stopped; `start` on a stopped session and `stop` on a
started one succeed and flip the `started` flag. -/
theorem start_stop_transitions (s : ProfilingSession α) :
    (s.started = true → s.start = (s, some SqltapError.StateError)) ∧
    (s.started = false → s.stop = (s, some SqltapError.StateError)) ∧
    (s.started = false → s.start = ({ s with started := true }, none)) ∧
    (s.started = true → s.stop = ({ s with started := false }, none)) := by
  refine ⟨fun h => ?_, fun h => ?_, fun h => ?_, fun h => ?_⟩ <;>
    simp [ProfilingSession.start, ProfilingSession.stop, h]

/-- Witness for C7 on concrete started and stopped sessions. -/
theorem start_stop_transitions_witness :
    (ProfilingSession.mk (α := ℤ) true (some [])).start
      = (ProfilingSession.mk true (some []), some SqltapError.StateError) ∧
    (ProfilingSession.mk (α := ℤ) false (some [])).stop
      = (ProfilingSession.mk false (some []), some SqltapError.StateError) ∧
    (ProfilingSession.mk (α := ℤ) false (some [])).start
      = (ProfilingSession.mk true (some []), none) ∧
    (ProfilingSession.mk (α := ℤ) true (some [])).stop
      = (ProfilingSession.mk false (some []), none) :=
  ⟨(start_stop_transitions _).1 rfl,
   (start_stop_transitions _).2.1 rfl,
   (start_stop_transitions _).2.2.1 rfl,
   (start_stop_transitions _).2.2.2 rfl⟩

/-! ## C6 -/

theorem enqueueAll_eq (s : ProfilingSession α) (qs : List (QueryStats α)) :
    s.enqueueAll qs = { s with collector := s.collector.map (· ++ qs) } := by
  induction qs generalizing s with
  | nil =>
    simp only [ProfilingSession.enqueueAll, List.foldl_nil, List.append_nil]
    cases s with
    | mk st col => cases col <;> rfl
  | cons q qs ih =>
    simp only [ProfilingSession.enqueueAll, List.foldl_cons] at ih ⊢
    rw [ih]
    cases s with
    | mk st col =>
      cases col <;> simp [ProfilingSession.enqueue]

/-- C6: `collect` on a callback-backed session fails with ConfigurationError;
on a queue-backed session it non-blockingly drains the queue: right after
a `collect`, enqueueing `enq` and collecting returns exactly `enq`, and an
immediate further `collect` with no new enqueues returns `[]`. -/
theorem collect_callback_and_drain (s : ProfilingSession α)
    (qsPrev enq : List (QueryStats α)) (hq : s.collector = some qsPrev) :
    (ProfilingSession.init (α := α) true).collect
      = .error SqltapError.ConfigurationError ∧
    s.collect = .ok (qsPrev, { s with collector := some [] }) ∧
    (({ s with collector := some ([] : List (QueryStats α)) }).enqueueAll enq).collect
      = .ok (enq, { s with collector := some [] }) ∧
    ({ s with collector := some ([] : List (QueryStats α)) }).collect
      = .ok (([] : List (QueryStats α)), { s with collector := some [] }) := by
  refine ⟨rfl, ?_, ?_, rfl⟩
  · simp [ProfilingSession.collect, hq]
  · rw [enqueueAll_eq]
    simp [ProfilingSession.collect]

/-- Witness for C6 on a concrete callback-backed session and a concrete
queue-backed session holding one record. -/
theorem collect_callback_and_drain_witness :
    (ProfilingSession.init (α := ℤ) true).collect
      = .error SqltapError.ConfigurationError ∧
    (ProfilingSession.mk (α := ℤ) false (some [durRec 1])).collect
      = .ok ([durRec 1], ProfilingSession.mk false (some [])) ∧
    ((ProfilingSession.mk (α := ℤ) false (some [])).enqueueAll [durRec 2]).collect
      = .ok ([durRec 2], ProfilingSession.mk false (some [])) ∧
    (ProfilingSession.mk (α := ℤ) false (some [])).collect
      = .ok (([] : List (QueryStats ℤ)), ProfilingSession.mk false (some [])) :=
  collect_callback_and_drain (ProfilingSession.mk false (some [durRec 1]))
    [durRec 1] [durRec 2] rfl

/-! ## C8 -/

theorem sumValues_cons (e : κ × ℕ) (t : List (κ × ℕ)) :
    sumValues (e :: t) = e.2 + sumValues t := by
  simp [sumValues]

theorem sumValues_setAssoc_bump [DecidableEq κ] (l : List (κ × ℕ)) (k : κ) :
    sumValues (setAssoc l k ((getAssoc l k).getD 0 + 1)) = sumValues l + 1 := by
  induction l with
  | nil => simp [setAssoc, getAssoc, sumValues]
  | cons e t ih =>
    by_cases h : e.1 = k
    · simp only [setAssoc, getAssoc, if_pos h, Option.getD_some, sumValues_cons]
      omega
    · simp only [setAssoc, getAssoc, if_neg h, sumValues_cons] at ih ⊢
      omega

/-- The effect of a successful `add` on the member list, the stack counts and
the running aggregates: the freeze stage touches only the frozen text
fields, then the record is appended, its stack count bumped, and the
aggregates updated. -/
theorem add_effect (f : String → Option String) {g g' : QueryGroup α}
    {c c' : ℕ} {q q' : QueryStats α} (h : g.add f c q = some (g', q', c')) :
    g'.queries = g.queries ++ [q] ∧
    g'.«stacks» = setAssoc g.«stacks» q.stack_text
      ((getAssoc g.«stacks» q.stack_text).getD 0 + 1) ∧
    g'.sum = g.sum + q.duration ∧
    g'.max = Max.max g.max q.duration ∧
    g'.min = Min.min g.min q.duration ∧
    g'.rowcounts = g.rowcounts + q.rowcount ∧
    g'.mean = (g.sum + q.duration) / ((g.queries.length + 1 : ℕ) : ℚ) := by
  rw [QueryGroup.add] at h
  cases hfz : (if !g.queries.isEmpty then some g else
      match (pySplit q.text).head? with
      | none => none
      | some w =>
        some { g with
                text := some q.text
                formatted_text := some (format_sql f q.text)
                first_word := some w }) with
  | none => rw [hfz] at h; exact absurd h (by simp)
  | some g1 =>
    rw [hfz] at h
    have hg1 : g1.queries = g.queries ∧ g1.«stacks» = g.«stacks» ∧ g1.sum = g.sum ∧
        g1.max = g.max ∧ g1.min = g.min ∧ g1.rowcounts = g.rowcounts := by
      by_cases he : g.queries.isEmpty
      · rw [if_neg (by simp [he])] at hfz
        cases hsp : (pySplit q.text).head? with
        | none => rw [hsp] at hfz; cases hfz
        | some w =>
          rw [hsp] at hfz
          cases hfz
          exact ⟨rfl, rfl, rfl, rfl, rfl, rfl⟩
      · rw [if_pos (by simp [he])] at hfz
        cases hfz
        exact ⟨rfl, rfl, rfl, rfl, rfl, rfl⟩
    obtain ⟨hq1, hs1, hsum1, hmax1, hmin1, hrc1⟩ := hg1
    simp only [Option.some.injEq, Prod.mk.injEq] at h
    obtain ⟨hg', -, -⟩ := h
    subst hg'
    refine ⟨by simp [hq1], by simp [hs1], by simp [hsum1], by simp [hmax1, hsum1],
      by simp [hmin1], by simp [hrc1], ?_⟩
    simp [hsum1, hq1]

theorem addAll_preserves_len_eq_sumValues (f : String → Option String)
    (qs : List (QueryStats α)) :
    ∀ (g : QueryGroup α) (c c' : ℕ) (g' : QueryGroup α),
      g.queries.length = sumValues g.«stacks» →
      g.addAll f c qs = some (g', c') →
      g'.queries.length = sumValues g'.«stacks» := by
  induction qs with
  | nil =>
    intro g c c' g' hinv h
    rw [QueryGroup.addAll] at h
    simp only [Option.some.injEq, Prod.mk.injEq] at h
    rw [← h.1]
    exact hinv
  | cons q qs ih =>
    intro g c c' g' hinv h
    rw [QueryGroup.addAll] at h
    cases hstep : g.add f c q with
    | none => rw [hstep] at h; cases h
    | some r =>
      rw [hstep] at h
      obtain ⟨g1, q1, c1⟩ := r
      have he := add_effect f hstep
      refine ih g1 c1 c' g' ?_ h
      rw [he.1, he.2.1, sumValues_setAssoc_bump]
      simp [hinv]

/-- C8: after any finite sequence of successful `add` calls on a fresh group,
the number of member records equals the sum of the occurrence counts in the
`stacks` mapping (`len(queries) == sum(stacks.values())`). -/
theorem addAll_len_eq_sumValues (f : String → Option String) (c c' : ℕ)
    (qs : List (QueryStats α)) (g' : QueryGroup α)
    (h : QueryGroup.init.addAll f c qs = some (g', c')) :
    g'.queries.length = sumValues g'.«stacks» :=
  addAll_preserves_len_eq_sumValues f qs QueryGroup.init c c' g'
    (by simp [QueryGroup.init, sumValues]) h

/-- Witness for C8: two concrete records added to a fresh group. -/
theorem addAll_len_eq_sumValues_witness :
    (QueryGroup.init.addAll (α := ℤ) (fun _ => none) 1 [durRec 1, durRec 2]).elim
      False (fun r => r.1.queries.length = sumValues r.1.«stacks») := by
  cases hh : QueryGroup.init.addAll (α := ℤ) (fun _ => none) 1 [durRec 1, durRec 2] with
  | none => exact absurd hh (by decide)
  | some r =>
    obtain ⟨g', c'⟩ := r
    exact addAll_len_eq_sumValues (fun _ => none) 1 c' [durRec 1, durRec 2] g' hh

/-! ## C3 -/

/-- Characterization of a successful run of `add` calls: final members,
`sum`, `max`, `min`, `rowcounts` as folds over the added records, and
`mean = sum / member count` once at least one record was added. -/
theorem addAll_stats (f : String → Option String) (qs : List (QueryStats α)) :
    ∀ (g : QueryGroup α) (c c' : ℕ) (g' : QueryGroup α),
      g.addAll f c qs = some (g', c') →
      g'.queries = g.queries ++ qs ∧
      g'.sum = g.sum + (qs.map (·.duration)).sum ∧
      g'.max = (qs.map (·.duration)).foldl Max.max g.max ∧
      g'.min = (qs.map (·.duration)).foldl Min.min g.min ∧
      g'.rowcounts = g.rowcounts + (qs.map (·.rowcount)).sum ∧
      (qs ≠ [] → g'.mean = g'.sum / (g'.queries.length : ℚ)) := by
  induction qs with
  | nil =>
    intro g c c' g' h
    rw [QueryGroup.addAll] at h
    simp only [Option.some.injEq, Prod.mk.injEq] at h
    rw [← h.1]
    simp
  | cons q qs ih =>
    intro g c c' g' h
    rw [QueryGroup.addAll] at h
    cases hstep : g.add f c q with
    | none => rw [hstep] at h; cases h
    | some r =>
      rw [hstep] at h
      obtain ⟨g1, q1, c1⟩ := r
      have he := add_effect f hstep
      have hrun := ih g1 c1 c' g' h
      refine ⟨?_, ?_, ?_, ?_, ?_, fun _ => ?_⟩
      · rw [hrun.1, he.1]
        simp
      · rw [hrun.2.1, he.2.2.1]
        simp [add_assoc]
      · rw [hrun.2.2.1, he.2.2.2.1]
        simp
      · rw [hrun.2.2.2.1, he.2.2.2.2.1]
        simp
      · rw [hrun.2.2.2.2.1, he.2.2.2.2.2.1]
        simp [add_assoc]
      · cases qs with
        | nil =>
          simp only [QueryGroup.addAll, Option.some.injEq, Prod.mk.injEq] at h
          rw [← h.1, he.2.2.2.2.2.2, he.2.2.1, he.1]
          simp
        | cons q2 qs2 =>
          exact hrun.2.2.2.2.2 (List.cons_ne_nil q2 qs2)

theorem foldl_max_spec (ds : List ℚ) (a : ℚ) :
    (ds.foldl Max.max a = a ∨ ds.foldl Max.max a ∈ ds) ∧
    a ≤ ds.foldl Max.max a ∧ ∀ d ∈ ds, d ≤ ds.foldl Max.max a := by
  induction ds generalizing a with
  | nil => simp
  | cons d ds ih =>
    simp only [List.foldl_cons, List.mem_cons]
    obtain ⟨hmem, hle, hub⟩ := ih (Max.max a d)
    refine ⟨?_, le_trans (le_max_left a d) hle, ?_⟩
    · rcases hmem with h | h
      · rcases max_choice a d with hc | hc
        · exact Or.inl (by rw [h, hc])
        · exact Or.inr (Or.inl (by rw [h, hc]))
      · exact Or.inr (Or.inr h)
    · intro x hx
      rcases hx with rfl | hx
      · exact le_trans (le_max_right a x) hle
      · exact hub x hx

theorem foldl_min_spec (ds : List ℚ) (a : ℚ) :
    (ds.foldl Min.min a = a ∨ ds.foldl Min.min a ∈ ds) ∧
    ds.foldl Min.min a ≤ a ∧ ∀ d ∈ ds, ds.foldl Min.min a ≤ d := by
  induction ds generalizing a with
  | nil => simp
  | cons d ds ih =>
    simp only [List.foldl_cons, List.mem_cons]
    obtain ⟨hmem, hle, hlb⟩ := ih (Min.min a d)
    refine ⟨?_, le_trans hle (min_le_left a d), ?_⟩
    · rcases hmem with h | h
      · rcases min_choice a d with hc | hc
        · exact Or.inl (by rw [h, hc])
        · exact Or.inr (Or.inl (by rw [h, hc]))
      · exact Or.inr (Or.inr h)
    · intro x hx
      rcases hx with rfl | hx
      · exact le_trans hle (min_le_right a x)
      · exact hlb x hx

/-- C3 (amended): adding a nonempty sequence of same-text records with
durations `≥ 0` to a fresh group yields `sum = Σ dᵢ`,
`max = max dᵢ`, `mean = sum / N` and `rowcounts = Σ rowcountᵢ`; and
`min = min dᵢ` holds provided some duration is at most the `sys.maxsize`
sentinel (otherwise `min` stays clamped at the sentinel).  The max and min
claims are stated as "is a member and bounds all members". -/
theorem addAll_aggregates (f : String → Option String) (t : String) (c c' : ℕ)
    (qs : List (QueryStats α)) (g' : QueryGroup α)
    (hne : qs ≠ [])
    (htext : ∀ q ∈ qs, q.text = t)
    (hpos : ∀ q ∈ qs, 0 ≤ q.duration)
    (hsmall : ∃ q ∈ qs, q.duration ≤ sys_maxsize)
    (hrun : QueryGroup.init.addAll f c qs = some (g', c')) :
    g'.sum = (qs.map (·.duration)).sum ∧
    (g'.max ∈ qs.map (·.duration) ∧ ∀ d ∈ qs.map (·.duration), d ≤ g'.max) ∧
    (g'.min ∈ qs.map (·.duration) ∧ ∀ d ∈ qs.map (·.duration), g'.min ≤ d) ∧
    g'.mean = g'.sum / (qs.length : ℚ) ∧
    g'.rowcounts = (qs.map (·.rowcount)).sum := by
  have hst := addAll_stats f qs QueryGroup.init c c' g' hrun
  have hq : g'.queries = qs := by
    rw [hst.1]
    simp [QueryGroup.init]
  have hds : qs.map (·.duration) ≠ [] := by
    simp [hne]
  refine ⟨?_, ?_, ?_, ?_, ?_⟩
  · rw [hst.2.1]
    simp [QueryGroup.init]
  · have hmax : g'.max = (qs.map (·.duration)).foldl Max.max 0 := by
      rw [hst.2.2.1]
      simp [QueryGroup.init]
    obtain ⟨hmem, -, hub⟩ := foldl_max_spec (qs.map (·.duration)) 0
    rw [hmax]
    refine ⟨?_, fun d hd => hub d hd⟩
    rcases hmem with h0 | hm
    · obtain ⟨d0, hd0⟩ := List.exists_mem_of_ne_nil _ hds
      have h1 : d0 ≤ 0 := h0 ▸ hub d0 hd0
      have h2 : 0 ≤ d0 := by
        obtain ⟨q0, hq0, rfl⟩ := List.mem_map.mp hd0
        exact hpos q0 hq0
      rw [h0, ← le_antisymm h1 h2]
      exact hd0
    · exact hm
  · have hmin : g'.min = (qs.map (·.duration)).foldl Min.min sys_maxsize := by
      rw [hst.2.2.2.1]
      simp [QueryGroup.init]
    obtain ⟨hmem, -, hlb⟩ := foldl_min_spec (qs.map (·.duration)) sys_maxsize
    rw [hmin]
    refine ⟨?_, fun d hd => hlb d hd⟩
    rcases hmem with h0 | hm
    · obtain ⟨q0, hq0, hd0⟩ := hsmall
      have hd0m : q0.duration ∈ qs.map (·.duration) := List.mem_map.mpr ⟨q0, hq0, rfl⟩
      have h1 : sys_maxsize ≤ q0.duration := h0 ▸ hlb _ hd0m
      rw [h0, ← le_antisymm hd0 h1]
      exact hd0m
    · exact hm
  · rw [hst.2.2.2.2.2 hne, hq]
  · rw [hst.2.2.2.2.1]
    simp [QueryGroup.init]

/-- Counterexample to C3 exactly as stated: one record with nonnegative
duration `2 ^ 63` (exceeding the `sys.maxsize` sentinel `2 ^ 63 - 1`),
added to a fresh group, leaves `group.min` clamped at the sentinel instead
of the minimum duration. -/
theorem addAll_min_clamped_counterexample :
    0 ≤ (durRec 9223372036854775808).duration ∧
    (QueryGroup.init.addAll (α := ℤ) (fun _ => none) 1
        [durRec 9223372036854775808]).elim False
      (fun r => r.1.min = sys_maxsize ∧
        r.1.min ≠ (durRec 9223372036854775808).duration) := by
  refine ⟨by norm_num [durRec], ?_⟩
  cases hh : QueryGroup.init.addAll (α := ℤ) (fun _ => none) 1
      [durRec 9223372036854775808] with
  | none => exact absurd hh (by decide)
  | some r =>
    obtain ⟨g1, c1⟩ := r
    have hst := addAll_stats (fun _ => none) _ QueryGroup.init 1 c1 g1 hh
    have hmin : g1.min = Min.min sys_maxsize (9223372036854775808 : ℚ) := by
      have := hst.2.2.2.1
      simpa [QueryGroup.init, durRec] using this
    simp only [Option.elim]
    have hval : Min.min sys_maxsize (9223372036854775808 : ℚ) = sys_maxsize :=
      min_eq_left (by norm_num [sys_maxsize])
    refine ⟨by rw [hmin, hval], ?_⟩
    rw [hmin, hval]
    norm_num [sys_maxsize, durRec]

/-- Witness for the amended C3 at a concrete two-record run. -/
theorem addAll_aggregates_witness :
    (QueryGroup.init.addAll (α := ℤ) (fun _ => none) 1 [durRec 1, durRec 2]).elim
      False (fun r =>
        r.1.sum = ([durRec 1, durRec 2].map (·.duration)).sum ∧
        (r.1.max ∈ [durRec 1, durRec 2].map (·.duration) ∧
          ∀ d ∈ [durRec 1, durRec 2].map (·.duration), d ≤ r.1.max) ∧
        (r.1.min ∈ [durRec 1, durRec 2].map (·.duration) ∧
          ∀ d ∈ [durRec 1, durRec 2].map (·.duration), r.1.min ≤ d) ∧
        r.1.mean = r.1.sum / (([durRec 1, durRec 2] : List (QueryStats ℤ)).length : ℚ) ∧
        r.1.rowcounts = ([durRec 1, durRec 2].map (·.rowcount)).sum) := by
  cases hh : QueryGroup.init.addAll (α := ℤ) (fun _ => none) 1 [durRec 1, durRec 2] with
  | none => exact absurd hh (by decide)
  | some r =>
    obtain ⟨g', c'⟩ := r
    simp only [Option.elim]
    exact addAll_aggregates (fun _ => none) "SELECT 1" 1 c' [durRec 1, durRec 2] g'
      (by decide) (by decide) (by intro q hq; fin_cases hq <;> norm_num [durRec])
      ⟨durRec 1, by decide, by norm_num [durRec, sys_maxsize]⟩ hh

/-! ## C1 -/

/-- Every display id stored in a group's `params_hashes` is at most `c`. -/
def idsBelow (c : ℕ) (g : QueryGroup α) : Prop :=
  ∀ e ∈ g.params_hashes, e.2.2.1.getD 0 ≤ c

theorem getAssoc_setAssoc_self [DecidableEq κ] (l : List (κ × β)) (k : κ) (v : β) :
    getAssoc (setAssoc l k v) k = some v := by
  induction l with
  | nil => simp [setAssoc, getAssoc]
  | cons e t ih =>
    by_cases h : e.1 = k
    · simp [setAssoc, getAssoc, h]
    · simp [setAssoc, getAssoc, h, ih]

theorem mem_setAssoc [DecidableEq κ] (l : List (κ × β)) (k : κ) (v : β) :
    ∀ e ∈ setAssoc l k v, e ∈ l ∨ e = (k, v) := by
  induction l with
  | nil => simp [setAssoc]
  | cons e0 t ih =>
    intro e he
    by_cases h : e0.1 = k
    · rw [setAssoc, if_pos h, List.mem_cons] at he
      rcases he with he | he
      · exact Or.inr he
      · exact Or.inl (List.mem_cons_of_mem e0 he)
    · rw [setAssoc, if_neg h, List.mem_cons] at he
      rcases he with he | he
      · exact Or.inl (he ▸ List.mem_cons_self e0 t)
      · rcases ih e he with h1 | h1
        · exact Or.inl (List.mem_cons_of_mem e0 h1)
        · exact Or.inr h1

theorem getAssoc_mem [DecidableEq κ] {l : List (κ × β)} {k : κ} {v : β}
    (h : getAssoc l k = some v) : (k, v) ∈ l := by
  induction l with
  | nil => simp [getAssoc] at h
  | cons e t ih =>
    rw [getAssoc] at h
    by_cases he : e.1 = k
    · rw [if_pos he] at h
      injection h with h
      exact (show (k, v) = e by rw [← he, ← h]) ▸ List.mem_cons_self e t
    · rw [if_neg he] at h
      exact List.mem_cons_of_mem e (ih h)

/-- C1 (amended): the shared counter never decreases across `add` calls and
all recorded ids stay bounded by it; a `params_hash` already recorded in
**this** group keeps its display id (and the counter does not move); a
`params_hash` new to this group — even one already seen by another group —
gets the fresh id `c + 1`, which is strictly greater than every id recorded
in any group whose ids are bounded by the shared counter, so a fresh id is
never assigned twice. -/
theorem add_display_id_discipline (f : String → Option String)
    {g g' : QueryGroup α} {c c' : ℕ} {q q' : QueryStats α}
    (hg : idsBelow c g) (h : g.add f c q = some (g', q', c')) :
    c ≤ c' ∧ idsBelow c' g' ∧
    (∀ cnt i ps, getAssoc g.params_hashes q.params_hash = some (cnt, some i, ps) →
      c' = c ∧ getAssoc g'.params_hashes q.params_hash = some (cnt + 1, some i, ps)) ∧
    (getAssoc g.params_hashes q.params_hash = none →
      c' = c + 1 ∧
      getAssoc g'.params_hashes q.params_hash = some (1, some (c + 1), q.params) ∧
      ∀ g0 : QueryGroup α, idsBelow c g0 → ∀ e ∈ g0.params_hashes,
        e.2.2.1.getD 0 < c + 1) := by
  rw [QueryGroup.add] at h
  cases hfz : (if !g.queries.isEmpty then some g else
      match (pySplit q.text).head? with
      | none => none
      | some w =>
        some { g with
                text := some q.text
                formatted_text := some (format_sql f q.text)
                first_word := some w }) with
  | none => rw [hfz] at h; exact absurd h (by simp)
  | some g1 =>
    rw [hfz] at h
    have hph1 : g1.params_hashes = g.params_hashes := by
      by_cases he : g.queries.isEmpty
      · rw [if_neg (by simp [he])] at hfz
        cases hsp : (pySplit q.text).head? with
        | none => rw [hsp] at hfz; cases hfz
        | some w => rw [hsp] at hfz; cases hfz; rfl
      · rw [if_pos (by simp [he])] at hfz
        cases hfz
        rfl
    simp only [Option.some.injEq, Prod.mk.injEq] at h
    obtain ⟨hg', -, hc'⟩ := h
    rw [hph1] at hg' hc'
    cases hlook : getAssoc g.params_hashes q.params_hash with
    | none =>
      rw [hlook] at hg' hc'
      simp only [Option.getD_none] at hg' hc'
      subst hc'
      refine ⟨Nat.le_succ c, ?_, ?_, fun _ => ⟨rfl, ?_, ?_⟩⟩
      · intro e he
        rw [← hg'] at he
        rcases mem_setAssoc _ _ _ e he with hm | hm
        · exact le_trans (hg e hm) (Nat.le_succ c)
        · rw [hm]
          simp
      · intro cnt0 i0 ps0 hsome
        simp at hsome
      · rw [← hg']
        exact getAssoc_setAssoc_self _ _ _
      · intro g0 hg0 e he
        exact Nat.lt_succ_of_le (hg0 e he)
    | some entry =>
      obtain ⟨cnt, sid, ps⟩ := entry
      rw [hlook] at hg' hc'
      simp only [Option.getD_some] at hg' hc'
      cases sid with
      | none =>
        subst hc'
        refine ⟨Nat.le_succ c, ?_, ?_, ?_⟩
        · intro e he
          rw [← hg'] at he
          rcases mem_setAssoc _ _ _ e he with hm | hm
          · exact le_trans (hg e hm) (Nat.le_succ c)
          · rw [hm]
            simp
        · intro cnt0 i0 ps0 hsome
          simp at hsome
        · intro hnone
          simp at hnone
      | some i =>
        subst hc'
        refine ⟨le_refl c, ?_, ?_, ?_⟩
        · intro e he
          rw [← hg'] at he
          rcases mem_setAssoc _ _ _ e he with hm | hm
          · exact hg e hm
          · rw [hm]
            simp only [Option.getD_some]
            exact hg _ (getAssoc_mem hlook)
        · intro cnt0 i0 ps0 hsome
          simp only [Option.some.injEq, Prod.mk.injEq] at hsome
          obtain ⟨h1, h2, h3⟩ := hsome
          subst h1
          subst h2
          subst h3
          refine ⟨rfl, ?_⟩
          rw [← hg']
          exact getAssoc_setAssoc_self _ _ _
        · intro hnone
          simp at hnone

/-- A concrete record carrying `params_hash = 10`. -/
def hashRec : QueryStats ℤ :=
  { durRec 1 with params_hash := 10 }

set_option synthInstance.maxSize 2000 in
/-- Counterexample to C1 as stated: `params_hash` 10, first observed by fresh
group A (with the shared class counter at its initial value 1) and then by
fresh group B (the counter continuing where A left it), is recorded with
display id 2 in A but display id 3 in B, and the counter advances a second
time for a hash the process has already seen — the `params_hashes` lookup
in `add` consults only the receiving group's own dict; only the counter is
shared. -/
theorem display_id_differs_across_groups_counterexample :
    (QueryGroup.init.add (α := ℤ) (fun _ => none) 1 hashRec).map
        (fun rA => (getAssoc rA.1.params_hashes 10, rA.2.2))
      = some (some (1, some 2, hashRec.params), 2) ∧
    ((QueryGroup.init.add (α := ℤ) (fun _ => none) 1 hashRec).bind
        (fun rA => QueryGroup.init.add (α := ℤ) (fun _ => none) rA.2.2 hashRec)).map
        (fun rB => (getAssoc rB.1.params_hashes 10, rB.2.2))
      = some (some (1, some 3, hashRec.params), 3) ∧
    (2 : ℕ) ≠ 3 := by
  refine ⟨by decide, by decide, by decide⟩

/-- Witness for the amended C1: one `add` of a new hash on a fresh group with
counter 1 assigns fresh id 2 and advances the counter to 2, keeping all
stored ids bounded by the counter. -/
theorem add_display_id_discipline_witness :
    (QueryGroup.init.add (α := ℤ) (fun _ => none) 1 hashRec).elim False (fun r =>
      1 ≤ r.2.2 ∧ idsBelow r.2.2 r.1 ∧ r.2.2 = 1 + 1 ∧
      getAssoc r.1.params_hashes hashRec.params_hash
        = some (1, some (1 + 1), hashRec.params)) := by
  cases hh : QueryGroup.init.add (α := ℤ) (fun _ => none) 1 hashRec with
  | none => exact absurd hh (by decide)
  | some r =>
    obtain ⟨g', q', c'⟩ := r
    simp only [Option.elim]
    have hinit : idsBelow 1 (QueryGroup.init (α := ℤ)) := by
      intro e he
      exact absurd he (by simp [QueryGroup.init])
    have hd := add_display_id_discipline (fun _ => none) hinit hh
    have hfresh := hd.2.2.2 (by decide)
    exact ⟨hd.1, hd.2.1, hfresh.1, hfresh.2.1⟩

/-! ## C2 -/

/-- Three same-text records with durations 1, 2 and 9. -/
def procRecs : List (QueryStats ℤ) :=
  [durRec 1, durRec 2, durRec 9]

/-- C2 fails on the code (`Reporter._process_stats` never finalizes the
all-inclusive group): on three same-text records with durations 1, 2, 9,
the single per-text group is finalized (`median = 2`, the descending-sort
median of the durations), but the all-inclusive group — although it holds
all three records — keeps its pre-finalization default `median = 0`. -/
theorem process_stats_all_group_median_unset :
    (process_stats (α := ℤ) (fun _ => none) (fun _ => "") 1 procRecs).map
        (fun r => (r.1.map QueryGroup.median, r.2.1.queries.length, r.2.1.median))
      = some ([2], 3, 0) := by
  decide

end Sqltap
